import Mathlib

/-!
Shallow embedding of the bcrl-rs signature-scanning engine.

The Rust sources embedded here are `src/cached_map.rs`, `src/cached_maps.rs`,
`src/search_constraints.rs`, `src/safe_pointer.rs`, `src/session.rs` and
`src/factory.rs`.  Pure Rust functions become Lean functions; `usize`
arithmetic is modelled on `Nat` with explicit wrapping modulo `2^64`
(release-profile semantics of `+`/`-` on `usize`); Rust slice expressions
that can panic are modelled through an `Option`-returning slice helper, a
panic becoming `none`.  External crates are modelled only at the interface
the source uses:

* `procfs` supplies `MMPermissions` (a bit set, of which the source reads
  the READ/WRITE/EXECUTE bits) and `MMapPath` (the region-name variants);
* `bound_stl::UpperBound::upper_bound_by_key` over the heap of maps is
  modelled as the C++ `upper_bound` on the sequence of maps in ascending
  `from_address` order: the index of the first map whose `from_address`
  exceeds the probed key, wrapped in `Ok`.  Likewise `BinaryHeap::iter` is
  modelled as iteration in ascending `from_address` order.  Both are the
  readings most favourable to the code (the heap's real iteration order is
  unspecified); every concrete input used below is chosen so that all
  plausible readings of the crate agree on it;
* `signature_scanner::Signature` is modelled as a list of byte predicates
  (`none` = wildcard) with `all`/`next`/`prev` match functions implementing
  the documented interface (all matches ascending, first match, last match);
* the xref finders of `x86_xref` enter only through their `all` method,
  which is kept as an explicit function parameter.
-/

namespace Bcrl

/-- `2^64`, the modulus of `usize` arithmetic on a 64-bit host. -/
def USIZE : Nat := 2 ^ 64

/-- Rust release-profile `usize` subtraction `a - b`: wraps modulo `2^64`.
For `b ≤ a < 2^64` this is plain subtraction. -/
def usizeSub (a b : Nat) : Nat := (a + USIZE - b % USIZE) % USIZE

/-- Rust release-profile `usize` addition `a + b`: wraps modulo `2^64`. -/
def usizeAdd (a b : Nat) : Nat := (a + b) % USIZE

/-- Rust `&bytes[i..j]`: the slice when `i ≤ j ≤ bytes.length`, otherwise the
expression panics, which is modelled as `none`. -/
def rustSlice (bytes : List Nat) (i j : Nat) : Option (List Nat) :=
  if i ≤ j && j ≤ bytes.length then some ((bytes.drop i).take (j - i)) else none

/-- The three permission bits of `procfs::process::MMPermissions` that the
source inspects (`contains(READ/WRITE/EXECUTE)`). -/
structure MMPermissions where
  read : Bool
  write : Bool
  execute : Bool
deriving DecidableEq, Repr

/-- The region-name variants of `procfs::process::MMapPath` that the source
distinguishes (`Path`, `Other`, and everything else). -/
inductive MMapPath where
  | anonymous : MMapPath
  | heap : MMapPath
  | stack : MMapPath
  | vdso : MMapPath
  | path (p : String) : MMapPath
  | other (s : String) : MMapPath
deriving DecidableEq, Repr

/-- `CachedMap` (src/cached_map.rs): one captured region
`[from_address, to_address)` with its permissions, name and bytes. -/
structure CachedMap where
  from_address : Nat
  to_address : Nat
  permissions : MMPermissions
  name : MMapPath
  bytes : List Nat
deriving DecidableEq, Repr

/-- `CachedMap::contains` (src/cached_map.rs line 48), verbatim:
`self.from_address >= address && address <= self.to_address`. -/
def CachedMap.contains (m : CachedMap) (address : Nat) : Bool :=
  decide (m.from_address ≥ address) && decide (address ≤ m.to_address)

/-- The containment predicate the specification mandates for region lookup:
`from ≤ address < to`. -/
def CachedMap.containsSpec (m : CachedMap) (address : Nat) : Bool :=
  decide (m.from_address ≤ address) && decide (address < m.to_address)

/-- `CachedMaps = BinaryHeap<CachedMap>` (src/cached_maps.rs), modelled as the
list of maps in ascending `from_address` order (the order `upper_bound_by_key`
needs and the charitable reading of `BinaryHeap::iter`). -/
def CachedMaps : Type := List CachedMap

/-- `bound_stl`'s `upper_bound_by_key(&address, |e| e.get_from_address())`
on the ascending sequence: the index of the first element whose
`from_address` is strictly greater than `address`; in a sorted list this is
the number of elements with `from_address ≤ address`. -/
def upperBoundByFrom (maps : List CachedMap) (address : Nat) : Nat :=
  (maps.filter (fun e => decide (e.from_address ≤ address))).length

/-- `FindAddress::find_map` (src/cached_maps.rs lines 14-31): empty-heap
check, `upper_bound_by_key`, step back one element, then the verbatim guard
`map.get_from_address() >= address && address <= map.get_to_address()`. -/
def find_map (maps : List CachedMap) (address : Nat) : Option CachedMap :=
  if maps.isEmpty then none
  else
    let idx := upperBoundByFrom maps address
    if idx > 0 then
      match maps.get? (idx - 1) with
      | some m =>
          if decide (m.from_address ≥ address) && decide (address ≤ m.to_address) then
            some m
          else none
      | none => none
    else none

/-- `SearchConstraints` (src/search_constraints.rs): an address window, a
list of custom region predicates, and three permission tri-states. -/
structure SearchConstraints where
  address_range : Nat × Nat
  predicates : List (CachedMap → Bool)
  readable : Option Bool
  writable : Option Bool
  executable : Option Bool

/-- `SearchConstraints::clamp_address_range` (src/search_constraints.rs lines
22-27), verbatim: `from = max(range.0, self.0) - range.0`,
`to = min(range.1, self.1) - range.0`.  Both subtractions are `usize`
subtractions and the result is relative to `range.0`. -/
def SearchConstraints.clamp_address_range (c : SearchConstraints)
    (address_range : Nat × Nat) : Nat × Nat :=
  (usizeSub (max address_range.1 c.address_range.1) address_range.1,
   usizeSub (min address_range.2 c.address_range.2) address_range.1)

/-- `SearchConstraints::everything` (src/search_constraints.rs lines 38-46):
window `[usize::MIN, usize::MAX]`, no predicates, tri-states all `None`. -/
def SearchConstraints.everything : SearchConstraints :=
  ⟨(0, USIZE - 1), [], none, none, none⟩

/-- `SearchConstraints::allows_map` (src/search_constraints.rs lines 120-152)
with the early returns rendered as a cascade: all predicates must pass, then
the range test `!(range.1 < from || range.1 < to)`, then each tri-state must
be `None` or equal the region's permission bit. -/
def SearchConstraints.allows_map (c : SearchConstraints) (m : CachedMap) : Bool :=
  if !(c.predicates.all (fun p => p m)) then false
  else if decide (c.address_range.2 < m.from_address)
       || decide (c.address_range.2 < m.to_address) then false
  else if (match c.readable with
           | some b => b != m.permissions.read
           | none => false) then false
  else if (match c.writable with
           | some b => b != m.permissions.write
           | none => false) then false
  else if (match c.executable with
           | some b => b != m.permissions.execute
           | none => false) then false
  else true

/-- A signature of `signature_scanner`: one entry per byte, `none` being a
wildcard (`??`). -/
def Signature : Type := List (Option Nat)

/-- Whether a signature matches the byte slice at offset `o`
(anchored there, fully inside the slice). -/
def sigMatchesAt (pat : Signature) (bytes : List Nat) (o : Nat) : Bool :=
  decide (o + pat.length ≤ bytes.length) &&
    (pat.zip (bytes.drop o)).all fun pc =>
      match pc.1 with
      | none => true
      | some b => b == pc.2

/-- `Signature::next`: the offset of the first match in the slice. -/
def sigNext (pat : Signature) (bytes : List Nat) : Option Nat :=
  (List.range (bytes.length + 1)).find? (fun o => sigMatchesAt pat bytes o)

/-- `Signature::prev`: the offset of the last match in the slice. -/
def sigPrev (pat : Signature) (bytes : List Nat) : Option Nat :=
  ((List.range (bytes.length + 1)).reverse).find? (fun o => sigMatchesAt pat bytes o)

/-- `Signature::all`: every match offset, ascending. -/
def sigAll (pat : Signature) (bytes : List Nat) : List Nat :=
  (List.range (bytes.length + 1)).filter (fun o => sigMatchesAt pat bytes o)

/-- `SafePointer` (src/safe_pointer.rs): the shared snapshot, the current
address, and the sticky invalid flag. -/
structure SafePointer where
  maps : List CachedMap
  address : Nat
  invalid : Bool
deriving DecidableEq, Repr

namespace SafePointer

/-- `SafePointer::new` (src/safe_pointer.rs lines 36-42): `invalid: false`. -/
def new (maps : List CachedMap) (address : Nat) : SafePointer :=
  ⟨maps, address, false⟩

/-- `SafePointer::add` (src/safe_pointer.rs lines 44-48): unchecked
`self.address += operand` (wraps in release builds). -/
def add (p : SafePointer) (operand : Nat) : SafePointer :=
  { p with address := usizeAdd p.address operand }

/-- `SafePointer::sub` (src/safe_pointer.rs lines 50-54): unchecked
`self.address -= operand` (wraps in release builds). -/
def sub (p : SafePointer) (operand : Nat) : SafePointer :=
  { p with address := usizeSub p.address operand }

/-- `SafePointer::invalidate` (src/safe_pointer.rs): set the flag. -/
def invalidate (p : SafePointer) : SafePointer :=
  { p with invalid := true }

/-- `SafePointer::revalidate` (src/safe_pointer.rs): clear the flag. -/
def revalidate (p : SafePointer) : SafePointer :=
  { p with invalid := false }

/-- `SafePointer::is_invalidated` (src/safe_pointer.rs). -/
def is_invalidated (p : SafePointer) : Bool := p.invalid

/-- `SafePointer::is_valid` (src/safe_pointer.rs lines 274-285): not
invalidated, the address resolves through `find_map`, and
`region.to_address - address >= length`. -/
def is_valid (p : SafePointer) (length : Nat) : Bool :=
  if p.invalid then false
  else
    match find_map p.maps p.address with
    | none => false
    | some region => decide (usizeSub region.to_address p.address ≥ length)

/-- `SafePointer::read` (src/safe_pointer.rs lines 287-296): `is_valid`
check, resolve the region again, then return
`&region.bytes[offset..offset + length]` with `offset = address - from`. -/
def read (p : SafePointer) (length : Nat) : Option (List Nat) :=
  if !p.is_valid length then none
  else
    match find_map p.maps p.address with
    | none => none
    | some region =>
        let offset := usizeSub p.address region.from_address
        rustSlice region.bytes offset (offset + length)

/-- `SafePointer::relative_to_absolute` (src/safe_pointer.rs lines 70-89),
parametric over the `byteorder` decoder `Endian::read_i32` exactly as the
source is generic over `Endian`: read 4 bytes; on success advance the
address by 4 and then add the decoded displacement with its sign
(`+= offset as usize` / `-= offset.unsigned_abs()`); on read failure
invalidate. -/
def relative_to_absolute (p : SafePointer)
    (readI32 : List Nat → Int) : SafePointer :=
  match p.read 4 with
  | some offset_bytes =>
      let offset := readI32 offset_bytes
      let a := usizeAdd p.address 4
      let a :=
        if offset > 0 then usizeAdd a offset.toNat
        else if offset < 0 then usizeSub a offset.natAbs
        else a
      { p with address := a }
  | none => p.invalidate

/-- `SafePointer::prev_occurrence` (src/safe_pointer.rs lines 103-128):
resolve the region, check `allows_map`, clamp `(from, address)`, slice
`bytes[range.0 - from .. range.1 - from]`, take the last signature match,
and on a hit run `self.address -= hit`.  A panicking slice is `none`. -/
def prev_occurrence (p : SafePointer) (signature : Signature)
    (constraints : SearchConstraints) : Option SafePointer :=
  match find_map p.maps p.address with
  | none => some p.invalidate
  | some m =>
      if !(constraints.allows_map m) then some p.invalidate
      else
        let range := constraints.clamp_address_range (m.from_address, p.address)
        match rustSlice m.bytes (usizeSub range.1 m.from_address)
            (usizeSub range.2 m.from_address) with
        | none => none
        | some slice =>
            match sigPrev signature slice with
            | some hit => some { p with address := usizeSub p.address hit }
            | none => some p.invalidate

/-- `SafePointer::next_occurrence` (src/safe_pointer.rs lines 130-151):
resolve the region (no `allows_map` check appears in this function), clamp
`(address, to)`, slice `bytes[range.0 - from .. range.1 - to]`, take the
first signature match, and on a hit run `self.address += hit`.  A panicking
slice is `none`. -/
def next_occurrence (p : SafePointer) (signature : Signature)
    (constraints : SearchConstraints) : Option SafePointer :=
  match find_map p.maps p.address with
  | none => some p.invalidate
  | some m =>
      let range := constraints.clamp_address_range (p.address, m.to_address)
      match rustSlice m.bytes (usizeSub range.1 m.from_address)
          (usizeSub range.2 m.to_address) with
      | none => none
      | some slice =>
          match sigNext signature slice with
          | some hit => some { p with address := usizeAdd p.address hit }
          | none => some p.invalidate

/-- `SafePointer::find_absolute_references` (src/safe_pointer.rs): for every
region the constraints allow, clamp `(from, to)`, slice the region bytes, run
the external finder's `all` (kept as the parameter `finderAll`), and wrap
each produced offset as a fresh pointer at `offset + from`.  A panicking
slice contributes nothing. -/
def find_absolute_references (p : SafePointer)
    (finderAll : List Nat → List Nat)
    (constraints : SearchConstraints) : List SafePointer :=
  p.maps.flatMap fun m =>
    if constraints.allows_map m then
      let range := constraints.clamp_address_range (m.from_address, m.to_address)
      match rustSlice m.bytes (usizeSub range.1 m.from_address)
          (usizeSub range.2 m.from_address) with
      | some bytes =>
          (finderAll bytes).map fun offset =>
            SafePointer.new p.maps (usizeAdd offset m.from_address)
      | none => []
    else []

end SafePointer

namespace Session

/-- The pool of a `Session` (src/session.rs): the stream of pointers,
materialised as the list it yields. -/
def Pool : Type := List SafePointer

/-- `Session::get_pointer` (src/session.rs lines 214-225): pop one element,
count the rest; a lone element yields `Ok(address)`, everything else yields
`Err(count + 1)` — the comment in the source says the `+ 1` accounts for the
element already read. -/
def get_pointer (pool : List SafePointer) : Except Nat Nat :=
  let result := pool.head?
  let count := pool.tail.length
  match result with
  | some res => if count = 0 then .ok res.address else .error (count + 1)
  | none => .error (count + 1)

/-- `Session::get_pool` (src/session.rs): each survivor's address. -/
def get_pool (pool : List SafePointer) : List Nat :=
  pool.map (fun p => p.address)

end Session

namespace BcrlFactory

/-- `BcrlFactory::signature` (src/factory.rs lines 57-77): for every region
the constraints allow, clamp `(from, to)`, slice the region bytes, scan for
every signature match, and seed one pointer per hit at `from + offset`.
A panicking slice contributes nothing. -/
def signature (maps : List CachedMap) (pattern : Signature)
    (constraints : SearchConstraints) : List SafePointer :=
  maps.flatMap fun m =>
    if !(constraints.allows_map m) then []
    else
      let range := constraints.clamp_address_range (m.from_address, m.to_address)
      match rustSlice m.bytes (usizeSub range.1 m.from_address)
          (usizeSub range.2 m.from_address) with
      | some bytes =>
          (sigAll pattern bytes).map fun offset =>
            SafePointer.new maps (usizeAdd m.from_address offset)
      | none => []

/-- `BcrlFactory::pointers` (src/factory.rs lines 80-85): wrap each given
address in a fresh pointer. -/
def pointers (maps : List CachedMap) (addresses : List Nat) : List SafePointer :=
  addresses.map fun address => SafePointer.new maps address

/-- `BcrlFactory::pointer` (src/factory.rs lines 87-91): a singleton pool. -/
def pointer (maps : List CachedMap) (address : Nat) : List SafePointer :=
  [SafePointer.new maps address]

end BcrlFactory

/-- Little-endian `read_i32` of the `byteorder` crate: assemble the first
four bytes little-endian and interpret the 32-bit word as two's complement. -/
def readLE32 (bytes : List Nat) : Int :=
  let w : Nat := bytes.getD 0 0 % 256 + bytes.getD 1 0 % 256 * 256 +
    bytes.getD 2 0 % 256 * 256 ^ 2 + bytes.getD 3 0 % 256 * 256 ^ 3
  if w < 2 ^ 31 then (w : Int) else (w : Int) - 2 ^ 32

/-! Concrete snapshots used to evaluate the code on specific inputs.  Every
snapshot carries a high sentinel region so that the `upper_bound_by_key`
index probed by `find_map` lies strictly inside the collection and the exact
`Result` convention of the bounds crate cannot matter. -/

/-- A read-and-execute permission set. -/
def permsRX : MMPermissions := ⟨true, false, true⟩

/-- A 16-byte region `[0x1000, 0x1010)` holding zeros. -/
def rC1 : CachedMap := ⟨0x1000, 0x1010, permsRX, MMapPath.anonymous, List.replicate 16 0⟩

/-- A high sentinel region, far above every probed address. -/
def rSentinel : CachedMap :=
  ⟨0x200000, 0x200010, permsRX, MMapPath.anonymous, List.replicate 16 0⟩

/-- A snapshot of `rC1` plus the sentinel, ascending by `from_address`. -/
def mapsC1 : List CachedMap := [rC1, rSentinel]

/-- Sixteen bytes whose only `0x07` sits at offset 2. -/
def bytesOcc : List Nat := [9, 9, 7, 9, 0, 0, 0, 0, 0, 0, 0, 0, 0, 0, 0, 0]

/-- A region `[0, 16)` holding `bytesOcc`. -/
def rOcc : CachedMap := ⟨0, 16, permsRX, MMapPath.anonymous, bytesOcc⟩

/-- A snapshot of `rOcc` plus the sentinel. -/
def mapsOcc : List CachedMap := [rOcc, rSentinel]

/-- The one-byte signature `07`. -/
def sigOcc : Signature := [some 7]

/-- A constraint whose window `[0, 0x1800)` overlaps `rOv` but stops short of
its end. -/
def cOv : SearchConstraints := ⟨(0, 0x1800), [], none, none, none⟩

/-- A region `[0x1000, 0x2000)` with full permissions. -/
def rOv : CachedMap :=
  ⟨0x1000, 0x2000, ⟨true, true, true⟩, MMapPath.anonymous, List.replicate 0x1000 0⟩

/-- A pointer at `0x1000` over an empty snapshot. -/
def pA : SafePointer := SafePointer.new [] 0x1000

/-- A pointer at `0x2000` over an empty snapshot. -/
def pB : SafePointer := SafePointer.new [] 0x2000

/-- C1.  The region-index lookup does not return a region iff one contains
the probed address: over the snapshot `mapsC1`, the address `0x1008` lies
strictly inside the cached region `rC1 = [0x1000, 0x1010)` in the sense the
specification mandates (`from ≤ a < to`), yet `find_map` returns nothing —
its guard, like `CachedMap::contains`, tests `from ≥ address` instead of
`from ≤ address`, so every address strictly inside a region is missed. -/
theorem c1_find_map_misses_interior_addresses :
    find_map mapsC1 0x1008 = none ∧
    rC1 ∈ mapsC1 ∧ rC1.containsSpec 0x1008 = true ∧
    rC1.contains 0x1008 = false := by decide

/-- C2.  A bounds-respecting read inside a region fails: the address
`0x1001` satisfies `rC1.from ≤ 0x1001` and `0x1001 + 1 ≤ rC1.to`, the
pointer is not invalidated, yet `read 1` returns `none` instead of the
claimed one-byte window, because `is_valid` resolves the address through
the broken `find_map` of C1. -/
theorem c2_read_fails_inside_region :
    (SafePointer.new mapsC1 0x1001).is_invalidated = false ∧
    rC1.from_address ≤ 0x1001 ∧ 0x1001 + 1 ≤ rC1.to_address ∧
    (SafePointer.new mapsC1 0x1001).read 1 = none := by decide

/-- C3.  Occurrence search does not behave as claimed.  With the everything
constraint over the snapshot `mapsOcc` (region `rOcc = [0, 16)`, single
signature hit at offset 2): a pointer at address 0 runs `next_occurrence`
over an empty slice (the code subtracts `to` where it should subtract
`from`) and invalidates, although the claimed window `[0, 16)` holds a
first match at offset 2; a pointer at the interior address 4 invalidates in
both directions because `find_map` (C1) cannot resolve it, although the
claimed `prev` window `[0, 4)` holds a last match at offset 2. -/
theorem c3_occurrence_search_is_broken :
    (SafePointer.new mapsOcc 0).next_occurrence sigOcc SearchConstraints.everything
      = some ((SafePointer.new mapsOcc 0).invalidate) ∧
    sigNext sigOcc rOcc.bytes = some 2 ∧
    (SafePointer.new mapsOcc 4).prev_occurrence sigOcc SearchConstraints.everything
      = some ((SafePointer.new mapsOcc 4).invalidate) ∧
    (SafePointer.new mapsOcc 4).next_occurrence sigOcc SearchConstraints.everything
      = some ((SafePointer.new mapsOcc 4).invalidate) ∧
    sigPrev sigOcc (rOcc.bytes.take 4) = some 2 ∧
    rOcc.containsSpec 4 = true := by decide

/-- C4.  `clamp_address_range` answers in offsets relative to the region
base, not in absolute addresses: clamping the everything constraint against
the region range `(0x1000, 0x2000)` yields `(0, 0x1000)`, while the
intersection of the constraint window with the region, expressed
absolutely, is `(0x1000, 0x2000)`. -/
theorem c4_clamp_returns_relative_offsets :
    SearchConstraints.everything.clamp_address_range (0x1000, 0x2000) = (0, 0x1000) ∧
    (max SearchConstraints.everything.address_range.1 0x1000,
      min SearchConstraints.everything.address_range.2 0x2000) = (0x1000, 0x2000) ∧
    ((0, 0x1000) : Nat × Nat) ≠ (0x1000, 0x2000) := by decide

/-- C6.  `get_pointer` on an empty pool answers `Err(1)`, not the claimed
exact count `Err(0)`: the unconditional `count + 1` assumes an element was
consumed even when the stream was empty.  A singleton pool and a two-element
pool behave as claimed. -/
theorem c6_get_pointer_empty_pool_count :
    Session.get_pointer [] = .error 1 ∧
    Session.get_pointer [pA] = .ok 0x1000 ∧
    Session.get_pointer [pA, pB] = .error 2 := by
  exact ⟨rfl, rfl, rfl⟩

/-- C7.  `add` and `sub` wrap the address around instead of clamping and
invalidating: adding 1 at `usize::MAX` lands on 0 and subtracting 1 from 0
lands on `usize::MAX`, and in both cases the pointer still reports itself
as not invalidated. -/
theorem c7_add_sub_wrap_without_invalidating :
    ((SafePointer.new [] (USIZE - 1)).add 1).address = 0 ∧
    ((SafePointer.new [] (USIZE - 1)).add 1).is_invalidated = false ∧
    ((SafePointer.new [] 0).sub 1).address = USIZE - 1 ∧
    ((SafePointer.new [] 0).sub 1).is_invalidated = false := by decide

/-- C9 counterexample.  Over an empty snapshot the single-pointer seed does
not yield an empty pool: `pointer(0x123)` collects to the pool `[0x123]`. -/
theorem c9_counterexample_pointer_seed_nonempty :
    Session.get_pool (BcrlFactory.pointer ([] : List CachedMap) 0x123) = [0x123] ∧
    ([0x123] : List Nat) ≠ [] := by decide

/-- C9 as amended.  Over an empty snapshot the signature seed yields an
empty pool, while `pointers` and `pointer` yield exactly the given
addresses (one pointer per input), independent of the snapshot. -/
theorem c9_amended_empty_snapshot_seeds (pattern : Signature)
    (c : SearchConstraints) (addrs : List Nat) (a : Nat) :
    BcrlFactory.signature ([] : List CachedMap) pattern c = [] ∧
    Session.get_pool (BcrlFactory.pointers ([] : List CachedMap) addrs) = addrs ∧
    Session.get_pool (BcrlFactory.pointer ([] : List CachedMap) a) = [a] := by
  refine ⟨rfl, ?_, rfl⟩
  induction addrs with
  | nil => rfl
  | cons x xs ih =>
      simpa [Session.get_pool, BcrlFactory.pointers, SafePointer.new] using
        congrArg (List.cons x) ih

/-- C5 counterexample.  The constraint `cOv` (window `[0, 0x1800)`, no
predicates, no permission requirements) overlaps the region
`rOv = [0x1000, 0x2000)`, so the claim makes `allows` true, but
`allows_map` returns false: its range test demands the window's upper end
reach the region's end instead of testing overlap. -/
theorem c5_counterexample_overlap_rejected :
    cOv.allows_map rOv = false ∧
    cOv.predicates.all (fun p => p rOv) = true ∧
    max cOv.address_range.1 rOv.from_address < min cOv.address_range.2 rOv.to_address ∧
    cOv.readable = none ∧ cOv.writable = none ∧ cOv.executable = none :=
  ⟨rfl, rfl, by decide, rfl, rfl, rfl⟩

/-- C5 as amended.  `allows_map` returns true iff all custom predicates
pass, the constraint window's upper end is at least the region's
`from_address` and at least its `to_address` (rather than the window
overlapping the region), and each permission tri-state is `None` or equals
the region's flag; in particular `everything()` allows every region whose
bounds fit in a `usize`. -/
theorem c5_amended_allows_map_characterization (c : SearchConstraints)
    (r : CachedMap) (hf : r.from_address < USIZE) (ht : r.to_address < USIZE) :
    (c.allows_map r = true ↔
      ((∀ p ∈ c.predicates, p r = true) ∧
        r.from_address ≤ c.address_range.2 ∧ r.to_address ≤ c.address_range.2 ∧
        (∀ b, c.readable = some b → b = r.permissions.read) ∧
        (∀ b, c.writable = some b → b = r.permissions.write) ∧
        (∀ b, c.executable = some b → b = r.permissions.execute))) ∧
    SearchConstraints.everything.allows_map r = true := by
  have key : ∀ cc : SearchConstraints, (cc.allows_map r = true ↔
      ((∀ p ∈ cc.predicates, p r = true) ∧
        r.from_address ≤ cc.address_range.2 ∧ r.to_address ≤ cc.address_range.2 ∧
        (∀ b, cc.readable = some b → b = r.permissions.read) ∧
        (∀ b, cc.writable = some b → b = r.permissions.write) ∧
        (∀ b, cc.executable = some b → b = r.permissions.execute))) := by
    rintro ⟨⟨lo, hi⟩, preds, rd, wr, ex⟩
    cases hA : (preds.all fun p => p r) with
    | false =>
        have hnA : ¬ (∀ p ∈ preds, p r = true) := fun h => by
          simp [List.all_eq_true.mpr h] at hA
        simp [SearchConstraints.allows_map, hA, hnA]
    | true =>
        have hAllP : ∀ p ∈ preds, p r = true := List.all_eq_true.mp hA
        rcases rd with _ | b1 <;> rcases wr with _ | b2 <;> rcases ex with _ | b3 <;>
          simp [SearchConstraints.allows_map, hA, hAllP, not_or, bne_iff_ne] <;>
          tauto
  refine ⟨key c, (key SearchConstraints.everything).mpr
    ⟨by simp [SearchConstraints.everything], ?_, ?_,
      by simp [SearchConstraints.everything],
      by simp [SearchConstraints.everything],
      by simp [SearchConstraints.everything]⟩⟩
  · show r.from_address ≤ USIZE - 1
    omega
  · show r.to_address ≤ USIZE - 1
    omega

/-- C5 witness.  The amended characterization applied at a concrete
constraint and region: `everything()` allows the region `rOv`. -/
theorem c5_amended_witness :
    SearchConstraints.everything.allows_map rOv = true :=
  (c5_amended_allows_map_characterization cOv rOv (by decide) (by decide)).2

/-- C8.  When the 4-byte read at the current address succeeds and the
caller's endian decoder yields the signed 32-bit displacement `d`,
`relative_to_absolute` sets the address to `old + 4 + d` (so `d = 0` makes
it advance by exactly 4) while leaving the invalid flag and the snapshot
untouched; when the read fails, the pointer invalidates with its address
unchanged.  The displacement bounds are the `i32` range guaranteed by the
decoder, and the no-overflow bounds keep the claim's plain-integer reading
of `old + 4 + d` meaningful. -/
theorem c8_relative_to_absolute_adds_displacement (f : List Nat → Int)
    (p : SafePointer) (bs : List Nat) (d : Int)
    (hread : p.read 4 = some bs) (hdec : f bs = d)
    (hlo : -(2 ^ 31) ≤ d) (hhi : d < 2 ^ 31)
    (haddr : p.address < USIZE)
    (hno : 0 ≤ (p.address : Int) + 4 + d)
    (hov : (p.address : Int) + 4 + d < (USIZE : Int)) :
    ((p.relative_to_absolute f).address : Int) = (p.address : Int) + 4 + d ∧
    (p.relative_to_absolute f).invalid = p.invalid ∧
    (p.relative_to_absolute f).maps = p.maps ∧
    (∀ q : SafePointer, q.read 4 = none → q.relative_to_absolute f = q.invalidate) := by
  refine ⟨?_, ?_, ?_, fun q hq => ?_⟩
  · simp only [SafePointer.relative_to_absolute, hread, hdec]
    split_ifs with h1 h2 <;>
      (simp only [usizeAdd, usizeSub, USIZE] at *
       push_cast
       omega)
  · simp only [SafePointer.relative_to_absolute, hread]
  · simp only [SafePointer.relative_to_absolute, hread]
  · simp only [SafePointer.relative_to_absolute, hq]

/-- C8 witness.  Over the snapshot `mapsC1`, a pointer at `0x1000` reads the
four zero bytes of `rC1`, the little-endian decoder yields displacement 0,
and the address advances to exactly `0x1004`. -/
theorem c8_witness :
    (((SafePointer.new mapsC1 0x1000).relative_to_absolute readLE32).address : Int) =
      ((SafePointer.new mapsC1 0x1000).address : Int) + 4 + 0 :=
  (c8_relative_to_absolute_adds_displacement readLE32 (SafePointer.new mapsC1 0x1000)
    [0, 0, 0, 0] 0 (by decide) (by decide) (by decide) (by decide) (by decide)
    (by decide) (by decide)).1

/-- C10.  Every pointer produced by `SafePointer::new` — hence by the
factory seeds `signature`, `pointers`, `pointer` (a `pointers`/`pointer`
pool element is literally `SafePointer.new maps address`) and by
cross-reference discovery — starts with the invalid flag false, whatever
its address; and at an address `find_map` cannot resolve, `read` merely
returns `none` (being a `&self` method it cannot touch the flag, which the
embedding reflects by `read` returning only the optional bytes) while the
pointer still reports `is_invalidated() = false`. -/
theorem c10_new_pointers_start_valid (maps : List CachedMap) (a L : Nat)
    (pattern : Signature) (c : SearchConstraints) (addrs : List Nat)
    (finderAll : List Nat → List Nat) (p : SafePointer) :
    (SafePointer.new maps a).is_invalidated = false ∧
    (p ∈ BcrlFactory.signature maps pattern c → p.is_invalidated = false) ∧
    (p ∈ BcrlFactory.pointers maps addrs → p.is_invalidated = false) ∧
    (p ∈ (SafePointer.new maps a).find_absolute_references finderAll c →
      p.is_invalidated = false) ∧
    (find_map maps a = none →
      (SafePointer.new maps a).read L = none ∧
      (SafePointer.new maps a).is_invalidated = false) := by
  refine ⟨rfl, ?_, ?_, ?_, fun h => ⟨?_, rfl⟩⟩
  · intro hp
    simp only [BcrlFactory.signature, List.mem_flatMap] at hp
    obtain ⟨m, -, hp⟩ := hp
    split at hp
    · simp at hp
    · split at hp
      · obtain ⟨o, -, rfl⟩ := List.mem_map.mp hp
        rfl
      · simp at hp
  · intro hp
    obtain ⟨x, -, rfl⟩ := List.mem_map.mp hp
    rfl
  · intro hp
    simp only [SafePointer.find_absolute_references, List.mem_flatMap] at hp
    obtain ⟨m, -, hp⟩ := hp
    split at hp
    · split at hp
      · obtain ⟨o, -, rfl⟩ := List.mem_map.mp hp
        rfl
      · simp at hp
    · simp at hp
  · simp [SafePointer.read, SafePointer.is_valid, SafePointer.new, h]

/-- C10 witness.  A seed pointer at `0x123` over an empty snapshot is a
member of the `pointers` pool, reports itself as not invalidated, and its
one-byte read returns `none` without that changing. -/
theorem c10_witness :
    (SafePointer.new ([] : List CachedMap) 0x123).is_invalidated = false ∧
    (SafePointer.new ([] : List CachedMap) 0x123).read 1 = none := by
  have h := c10_new_pointers_start_valid [] 0x123 1 [] SearchConstraints.everything
    [0x123] (fun _ => []) (SafePointer.new [] 0x123)
  exact ⟨h.2.2.1 (by decide), (h.2.2.2.2 rfl).1⟩

end Bcrl
